import Mathlib

/-!
# Verification of the MagiskHide process monitor

Shallow embedding of `native/jni/magiskhide/proc_monitor.cpp`: the package
database parser, the uid/zygote maps, the ptrace bookkeeping bitsets and the
main trace loop, together with theorems settling the specification claims.

Machine-level conventions: wait statuses are modelled as natural numbers with
the `WIFSTOPPED` / `WSTOPSIG` / `WEVENT` bit macros spelled out arithmetically;
the two `std::bitset<PID_MAX>` objects are modelled as `Finset ℕ` holding the
set of true indices, with the (finite) index bound tracked separately by the
`*_bit_ops` functions, since `operator[]` on a `std::bitset` has defined
behaviour only for indices below its size.
-/

namespace Magisk

/-- Mount-namespace identity: the `(st_dev, st_ino)` pair of `/proc/PID/ns/mnt`. -/
abbrev NsId := ℕ × ℕ

/-- The fields of `struct stat` for `/proc/<pid>` that `check_pid` consumes:
`st_uid`, `st_dev`, `st_ino` (the latter two are what the namespace comparison
reads when `read_ns` fails and leaves the variable holding the directory stat). -/
structure ProcStat where
  uid : ℕ
  dev : ℕ
  ino : ℕ
deriving DecidableEq, Repr

/-- A snapshot of the process filesystem as consumed by the monitor.
All readers are best effort: `cmdline` is `none` when `fopen` fails
(`/proc/<pid>/cmdline` vanished) and `ns` is `none` when `stat` on
`/proc/<pid>/ns/mnt` fails. `threads` lists `/proc/<pid>/task`, and
`waitable tid` tells whether `waitpid(tid, …, WNOHANG)` returns `tid`. -/
structure ProcFS where
  cmdline : ℕ → Option String
  dirStat : ℕ → ProcStat
  ns : ℕ → Option NsId
  threads : ℕ → List ℕ
  waitable : ℕ → Bool

/-- The externally visible ptrace/kill/fork calls the monitor issues. -/
inductive Action where
  | ptraceDetach (pid sig : ℕ)
  | tgkill (pid tid sig : ℕ)
  | ptraceCont (pid sig : ℕ)
  | ptraceAttach (pid : ℕ)
  | ptraceSetOpts (pid opts : ℕ)
  | waitFor (pid : ℕ)
  | getEventMsg (pid : ℕ)
  | spawnAgent (pid : ℕ)
deriving DecidableEq, Repr

/-- `uid -> list of process` (`uid_proc_map`), an association list with
unique keys standing for the `std::map`. -/
abbrev UidMap := List (ℕ × List String)

/-- The monitor's global mutable state: `hide_set`, `zygote_map`,
`uid_proc_map` and the two bitsets `attaches` / `detaches` (as index sets). -/
structure MonState where
  hide_set : List (String × String)
  zygote_map : List (ℕ × NsId)
  uid_proc_map : UidMap
  attaches : Finset ℕ
  detaches : Finset ℕ
deriving DecidableEq

def SIGTRAP : ℕ := 5
def SIGSTOP : ℕ := 19

def PTRACE_EVENT_FORK : ℕ := 1
def PTRACE_EVENT_VFORK : ℕ := 2
def PTRACE_EVENT_CLONE : ℕ := 3
def PTRACE_EVENT_EXEC : ℕ := 4
def PTRACE_EVENT_EXIT : ℕ := 6

/-- `PTRACE_O_TRACEFORK | PTRACE_O_TRACEVFORK | PTRACE_O_TRACEEXIT`. -/
def ZYGOTE_OPTS : ℕ := 2 + 4 + 64

/-- `PTRACE_O_TRACECLONE | PTRACE_O_TRACEEXEC | PTRACE_O_TRACEEXIT`. -/
def CHILD_OPTS : ℕ := 8 + 16 + 64

/-- `WIFSTOPPED(s)`: `(s & 0xff) == 0x7f`. -/
def wifstopped (s : ℕ) : Bool := s % 256 = 127

/-- `WSTOPSIG(s)`: `(s >> 8) & 0xff`. -/
def wstopsig (s : ℕ) : ℕ := s / 256 % 256

/-- `WEVENT(s)`: `((s & 0xffff0000) >> 16)` on a 32-bit status. -/
def wevent (s : ℕ) : ℕ := s / 65536 % 65536

/-!
## Package database parser (`parse_packages_xml`)

The C parser walks the line buffer in place with `strchr`.  We model the
`strchr` / pointer-bump pattern on `List Char`: `splitOnce c l` returns the
characters before the first `c` and the characters after it, or `none` when
`c` does not occur (a null `strchr` result).
-/

def splitOnce (c : Char) : List Char → Option (List Char × List Char)
  | [] => none
  | x :: xs =>
    if x = c then some ([], xs)
    else (splitOnce c xs).map (fun p => (x :: p.1, p.2))

theorem splitOnce_length {c : Char} : ∀ {l a b : List Char},
    splitOnce c l = some (a, b) → b.length < l.length := by
  intro l
  induction l with
  | nil => intro a b h; simp [splitOnce] at h
  | cons x xs ih =>
    intro a b h
    by_cases hx : x = c
    · simp only [splitOnce, if_pos hx, Option.some.injEq, Prod.mk.injEq] at h
      rw [← h.2]
      simp
    · simp only [splitOnce, if_neg hx, Option.map_eq_some'] at h
      obtain ⟨⟨p1, p2⟩, hp, heq⟩ := h
      have hlt := ih hp
      have : b = p2 := by
        have := congrArg Prod.snd heq
        simpa using this.symm
      subst this
      simp only [List.length_cons]
      omega

/-- `parse_int` from the shared utils (not part of this file's source):
accumulate decimal digits, stopping at the first non-digit.
Modelled from the spec: only the integer field value matters to the claims. -/
def parse_int (s : String) : ℕ :=
  (s.data.takeWhile Char.isDigit).foldl (fun acc c => acc * 10 + (c.toNat - 48)) 0

/-- `uid_proc_map[uid].emplace_back(p)`: append to the entry for `uid`,
default-constructing it when absent (`std::map::operator[]`). -/
def emplace : UidMap → ℕ → String → UidMap
  | [], uid, p => [(uid, [p])]
  | e :: es, uid, p =>
    if e.1 = uid then (e.1, e.2 ++ [p]) :: es else e :: emplace es uid p

/-- `uid_proc_map.find(uid)`. -/
def lookupU (m : UidMap) (uid : ℕ) : Option (List String) :=
  (m.find? (fun e => e.1 == uid)).map Prod.snd

/-- The attribute loop of `parse_packages_xml`, on the record body (the line
with the leading `<package ` and the trailing character already stripped).
One iteration: `strchr(tok, '=')` (`none` → break, record done), skip the
opening quote (`eql += 2`), `strchr(eql, '\x22')` for the closing quote —
and when that `strchr` returns null the C code dereferences the null pointer
(`*tok = 0`), modelled as the `none` result.  A `name` key scans `hide_set`
for a package match (keeping the previous match otherwise) and returns early
while no package has matched; a `userId`/`sharedUserId` key appends every
rule of the matched package to `uid_proc_map[uid]`. -/
def parseAttrs (hide : List (String × String)) (s : List Char) (pkg : String)
    (m : UidMap) : Option UidMap :=
  match h1 : splitOnce '=' s with
  | none => some m
  | some (key, rest) =>
    match h2 : splitOnce '"' (rest.drop 1) with
    | none => none
    | some (value, rest2) =>
      let keyS := String.mk key
      let valS := String.mk value
      if keyS = "name" then
        let pkg' := match hide.find? (fun hd => hd.1 == valS) with
                    | some hd => hd.1
                    | none => pkg
        if pkg' = "" then some m
        else parseAttrs hide (rest2.drop 1) pkg' m
      else if keyS = "userId" ∨ keyS = "sharedUserId" then
        let uid := parse_int valS
        let m' := hide.foldl
          (fun acc hd => if hd.1 = pkg then emplace acc uid hd.2 else acc) m
        parseAttrs hide (rest2.drop 1) pkg m'
      else
        parseAttrs hide (rest2.drop 1) pkg m
termination_by s.length
decreasing_by
  all_goals
    have l1 := splitOnce_length h1
    have l2 := splitOnce_length h2
    simp only [List.length_drop] at *
    omega

/-- The `key=\x22value\x22` pairs the attribute loop would extract, in order,
stopping at the first malformed attribute.  Companion observation function for
stating order-dependence facts about `parseAttrs`. -/
def attrPairsOf (s : List Char) : List (String × String) :=
  match h1 : splitOnce '=' s with
  | none => []
  | some (key, rest) =>
    match h2 : splitOnce '"' (rest.drop 1) with
    | none => []
    | some (value, rest2) =>
      (String.mk key, String.mk value) :: attrPairsOf (rest2.drop 1)
termination_by s.length
decreasing_by
  all_goals
    have l1 := splitOnce_length h1
    have l2 := splitOnce_length h2
    simp only [List.length_drop] at *
    omega

/-- `str_starts(s, ss)` from the shared utils (not part of this file's
source): does `s` begin with `ss`?  Modelled from the spec's "records are
lines starting `<package `". -/
def str_starts (s ss : String) : Bool :=
  s.data.take ss.data.length = ss.data

/-- `parse_packages_xml` on one line: skip lines not starting `<package `;
otherwise drop the trailing `>` (`start[s.length()-1] = 0`), skip the 9-byte
header (`start += 9`) and run the attribute loop with `pkg` empty. -/
def parse_packages_xml (hide : List (String × String)) (m : UidMap)
    (line : String) : Option UidMap :=
  if str_starts line "<package " then
    parseAttrs hide ((line.data.dropLast).drop 9) "" m
  else
    some m

/-- `update_uid_map`: clear `uid_proc_map` and re-parse every line of
`/data/system/packages.xml` (`file_readline` modelled as the line list). -/
def update_uid_map (lines : List String) (st : MonState) : Option MonState :=
  (lines.foldl
      (fun acc line => acc.bind (fun m => parse_packages_xml st.hide_set m line))
      (some ([] : UidMap))).map
    (fun m => { st with uid_proc_map := m })

/-!
## Spawner registry (`zygote_map`) and `new_zygote`
-/

/-- `zygote_map.find(pid)` / `zygote_map.count(pid)`. -/
def lookupZ (m : List (ℕ × NsId)) (pid : ℕ) : Option NsId :=
  (m.find? (fun z => z.1 == pid)).map Prod.snd

/-- `it->second = st`: overwrite the value stored for `pid`. -/
def updateZ (m : List (ℕ × NsId)) (pid : ℕ) (n : NsId) : List (ℕ × NsId) :=
  m.map (fun z => if z.1 = pid then (pid, n) else z)

/-- `zygote_map.erase(pid)`. -/
def eraseZ (m : List (ℕ × NsId)) (pid : ℕ) : List (ℕ × NsId) :=
  m.filter (fun z => z.1 != pid)

/-- `new_zygote(pid)`: read the mount-namespace identity (silently abort on
failure); update it when the pid is already registered; otherwise register,
`PTRACE_ATTACH`, wait for the initial stop, set fork/vfork/exit stop options
and resume. -/
def new_zygote (fs : ProcFS) (st : MonState) (pid : ℕ) : MonState × List Action :=
  match fs.ns pid with
  | none => (st, [])
  | some n =>
    match lookupZ st.zygote_map pid with
    | some _ => ({ st with zygote_map := updateZ st.zygote_map pid n }, [])
    | none =>
      ({ st with zygote_map := st.zygote_map ++ [(pid, n)] },
       [Action.ptraceAttach pid, Action.waitFor pid,
        Action.ptraceSetOpts pid ZYGOTE_OPTS, Action.ptraceCont pid 0])

/-!
## `detach_pid`, `check_pid` and the trace loop
-/

/-- `detach_pid(pid, signal)`: clear `attaches[pid]`, `PTRACE_DETACH` the pid
with the given signal, then release every other thread of the thread group:
already-waitable threads are detached directly, the rest are marked in
`detaches` and sent a thread-directed `SIGSTOP`.  `detachStep` is the body of
the `crawl_procfs` loop over `/proc/<pid>/task`. -/
def detachStep (fs : ProcFS) (pid : ℕ) (acc : MonState × List Action)
    (tid : ℕ) : MonState × List Action :=
  if tid = pid then acc
  else if fs.waitable tid then
    (acc.1, acc.2 ++ [Action.ptraceDetach tid 0])
  else
    ({ acc.1 with detaches := insert tid acc.1.detaches },
     acc.2 ++ [Action.tgkill pid tid SIGSTOP])

def detach_pid (fs : ProcFS) (st : MonState) (pid : ℕ) (sig : ℕ) :
    MonState × List Action :=
  (fs.threads pid).foldl (detachStep fs pid)
    ({ st with attaches := st.attaches.erase pid }, [Action.ptraceDetach pid sig])

/-- The name-scan loop of `check_pid`: find the first process name of the
uid's rule list equal to the command line; on a hit, compare the tracee's
mount-namespace identity (falling back to the already-read `/proc/<pid>`
stat when `read_ns` fails, since the return value is ignored and the same
`struct stat` variable is reused) against every registered spawner.  A shared
namespace breaks out of the loop to the plain-detach epilogue; a separated
namespace is the target: detach leaving a `SIGSTOP` pending and spawn the
hide daemon.  The `Bool` is `check_pid`'s return value. -/
def scan_names (fs : ProcFS) (st : MonState) (pid : ℕ) (cmd : String)
    (ds : ProcStat) : List String → MonState × List Action × Bool
  | [] =>
    let r := detach_pid fs st pid 0
    (r.1, r.2, true)
  | s :: rest =>
    if s = cmd then
      let n : NsId := match fs.ns pid with
                      | some n => n
                      | none => (ds.dev, ds.ino)
      if st.zygote_map.any (fun z => z.2.2 = n.2 ∧ z.2.1 = n.1) then
        let r := detach_pid fs st pid 0
        (r.1, r.2, true)
      else
        let r := detach_pid fs st pid SIGSTOP
        (r.1, r.2 ++ [Action.spawnAgent pid], true)
    else
      scan_names fs st pid cmd ds rest

/-- `check_pid(pid)`: classification of a non-spawner tracee.  A vanished
`/proc/<pid>/cmdline` returns `true` with nothing done; a command line
starting `zygote` returns `false` (keep the tracee attached); otherwise the
uid (mod 100000) selects the rule list and `scan_names` decides. -/
def check_pid (fs : ProcFS) (st : MonState) (pid : ℕ) :
    MonState × List Action × Bool :=
  match fs.cmdline pid with
  | none => (st, [], true)
  | some cmd =>
    if cmd.take 6 = "zygote" then (st, [], false)
    else
      let ds := fs.dirStat pid
      let uid := ds.uid % 100000
      match lookupU st.uid_proc_map uid with
      | none =>
        let r := detach_pid fs st pid 0
        (r.1, r.2, true)
      | some names => scan_names fs st pid cmd ds names

/-- One `waitpid` delivery to the trace loop: the woken pid, its raw wait
status, the `PTRACE_GETEVENTMSG` value the kernel would report, and the
`/proc` snapshot the iteration observes. -/
structure TraceEvent where
  pid : ℕ
  status : ℕ
  msg : ℕ
  fs : ProcFS

/-- The `DETACH_AND_CONT` epilogue (the `RunFinally` body): clear the pid
from both bitsets and issue a raw `PTRACE_DETACH` with no signal. -/
def detachAndCont (st : MonState) (pid : ℕ) : MonState × List Action :=
  ({ st with attaches := st.attaches.erase pid,
             detaches := st.detaches.erase pid },
   [Action.ptraceDetach pid 0])

/-- One iteration of the `proc_monitor` main loop body for a successfully
reaped pid, following the source's event classification verbatim. -/
def proc_monitor_step (e : TraceEvent) (st : MonState) : MonState × List Action :=
  if wifstopped e.status = false ∨ e.pid ∈ st.detaches then
    detachAndCont st e.pid
  else if wstopsig e.status = SIGTRAP ∧ wevent e.status ≠ 0 then
    if (lookupZ st.zygote_map e.pid).isSome then
      if wevent e.status = PTRACE_EVENT_FORK ∨ wevent e.status = PTRACE_EVENT_VFORK then
        ({ st with attaches := insert e.msg st.attaches },
         [Action.getEventMsg e.pid, Action.ptraceCont e.pid 0])
      else
        let r := detachAndCont { st with zygote_map := eraseZ st.zygote_map e.pid } e.pid
        (r.1, Action.getEventMsg e.pid :: r.2)
    else
      if wevent e.status = PTRACE_EVENT_CLONE then
        if e.pid ∈ st.attaches then
          let r := check_pid e.fs st e.pid
          if r.2.2 then (r.1, Action.getEventMsg e.pid :: r.2.1)
          else (r.1, Action.getEventMsg e.pid :: r.2.1 ++ [Action.ptraceCont e.pid 0])
        else (st, [Action.getEventMsg e.pid, Action.ptraceCont e.pid 0])
      else
        let r := detachAndCont st e.pid
        (r.1, Action.getEventMsg e.pid :: r.2)
  else if wstopsig e.status = SIGSTOP then
    (st, [Action.ptraceSetOpts e.pid CHILD_OPTS, Action.ptraceCont e.pid 0])
  else
    (st, [Action.ptraceCont e.pid (wstopsig e.status)])

/-- An event of the whole monitor: either a trace-loop wakeup or a
discovery-scan registration of a spawner (`check_zygote` → `new_zygote`). -/
inductive SysEvent where
  | trace (e : TraceEvent)
  | discover (fs : ProcFS) (pid : ℕ)

/-- State transition of one system event (actions discarded). -/
def sysStep (st : MonState) (ev : SysEvent) : MonState :=
  match ev with
  | .trace e => (proc_monitor_step e st).1
  | .discover fs pid => (new_zygote fs st pid).1

/-- Run a sequence of system events. -/
def runEvents (st : MonState) (evs : List SysEvent) : MonState :=
  evs.foldl sysStep st

/-!
## Bitset index accounting (`bitset<PID_MAX>` bounds)

`attaches` and `detaches` are `std::bitset<PID_MAX>` objects and every
`attaches[i]` / `detaches[i]` in the source is an unchecked
`std::bitset::operator[]`, whose behaviour is defined only for `i < PID_MAX`.
The following functions re-trace the source and list, in program order, the
bitset indices each code path reads or writes.
-/

/-- `#define PID_MAX 32768`. -/
def PID_MAX : ℕ := 32768

/-- Bitset indices touched by `detach_pid`: the `attaches[pid] = false`
write, then one `detaches[tid] = true` write per not-yet-waitable sibling
thread. -/
def detach_pid_bit_ops (fs : ProcFS) (pid : ℕ) : List ℕ :=
  pid :: (fs.threads pid).filter (fun tid => tid != pid && !fs.waitable tid)

/-- Bitset indices touched by `check_pid`: none on a vanished command line or
a `zygote`-prefixed one; every other path runs `detach_pid`. -/
def check_pid_bit_ops (fs : ProcFS) (st : MonState) (pid : ℕ) : List ℕ :=
  match fs.cmdline pid with
  | none => []
  | some cmd =>
    if cmd.take 6 = "zygote" then []
    else detach_pid_bit_ops fs pid

/-- Bitset indices touched by the `RunFinally` detach epilogue:
`attaches[pid] = false; detaches[pid] = false`. -/
def detachContBitOps (pid : ℕ) : List ℕ := [pid, pid]

/-- Bitset indices touched by one trace-loop iteration: the `detaches[pid]`
guard read, the `attaches[msg] = true` write of a spawner fork event, the
`attaches[pid]` test of a clone event followed by `check_pid`'s accesses, and
the epilogue writes on the detach paths. -/
def proc_monitor_bit_ops (e : TraceEvent) (st : MonState) : List ℕ :=
  let pid := e.pid
  if wifstopped e.status = false then
    detachContBitOps pid
  else
    pid ::
      (if pid ∈ st.detaches then
        detachContBitOps pid
      else if wstopsig e.status = SIGTRAP ∧ wevent e.status ≠ 0 then
        if (lookupZ st.zygote_map pid).isSome then
          if wevent e.status = PTRACE_EVENT_FORK ∨
              wevent e.status = PTRACE_EVENT_VFORK then
            [e.msg]
          else detachContBitOps pid
        else
          if wevent e.status = PTRACE_EVENT_CLONE then
            pid :: (if pid ∈ st.attaches then check_pid_bit_ops e.fs st pid else [])
          else detachContBitOps pid
      else [])

/-!
## Freshness of newly observed pids

`attaches[msg] = true` on a fork event and `detaches[tid] = true` in
`detach_pid` insert pids into one bitset without consulting the other, so
the disjointness of the two sets is only preserved when the pids the kernel
hands over are not stale members of the opposite set.
-/

/-- The freshness side condition of one event: a fork-event message pid is
not awaiting detach, and no sibling thread the event could fan out over is
still marked as monitored. -/
def eventOk (st : MonState) (ev : SysEvent) : Bool :=
  match ev with
  | .trace e =>
    !decide (e.msg ∈ st.detaches) &&
      (e.fs.threads e.pid).all (fun tid => tid == e.pid || !decide (tid ∈ st.attaches))
  | .discover _ _ => true

/-- Freshness along a whole event sequence. -/
def runOk : MonState → List SysEvent → Bool
  | _, [] => true
  | st, ev :: evs => eventOk st ev && runOk (sysStep st ev) evs

/-!
## Concrete fixtures
-/

def emptyStat : ProcStat := ⟨0, 0, 0⟩

/-- A procfs where every process has vanished. -/
def fs0 : ProcFS :=
  ⟨fun _ => none, fun _ => emptyStat, fun _ => none, fun _ => [], fun _ => false⟩

/-- The monitor's pristine state. -/
def st0 : MonState := ⟨[], [], [], ∅, ∅⟩

/-- A procfs where pid 102 shows the command line of a zygote variant. -/
def fsZ : ProcFS :=
  ⟨fun p => if p = 102 then some "zygote64" else none,
   fun _ => emptyStat, fun _ => none, fun p => [p], fun _ => false⟩

/-- Monitor state expecting to classify pid 102. -/
def stZ : MonState := ⟨[], [], [], {102}, ∅⟩

/-- A procfs where pid 101 runs an app that matches no rule. -/
def fsFoo : ProcFS :=
  ⟨fun p => if p = 101 then some "com.foo" else none,
   fun _ => emptyStat, fun _ => none, fun p => [p], fun _ => false⟩

/-- Monitor state expecting to classify pid 101. -/
def stA101 : MonState := ⟨[], [], [], {101}, ∅⟩

/-- Wait status: ptrace-stop, `SIGTRAP`, event `PTRACE_EVENT_FORK`. -/
def STATUS_FORK : ℕ := 127 + 256 * 5 + 65536 * 1

/-- Wait status: ptrace-stop, `SIGTRAP`, event `PTRACE_EVENT_CLONE`. -/
def STATUS_CLONE : ℕ := 127 + 256 * 5 + 65536 * 3

/-!
## Claim theorems
-/

/-- C1 (amended): a child whose command line starts with the literal
`zygote` is not detached by classification: `check_pid` returns `false`
with the monitor state untouched (the pid stays in `attaches`, the spawner
registry is unchanged) and no action issued, and the trace loop then merely
resumes the tracee with `PTRACE_CONT`. -/
theorem c1_zygote_child_kept (st : MonState) (e : TraceEvent) (cmd : String)
    (hc : e.fs.cmdline e.pid = some cmd) (hz : cmd.take 6 = "zygote")
    (hs : wifstopped e.status = true) (hd : e.pid ∉ st.detaches)
    (hsig : wstopsig e.status = SIGTRAP) (hev : wevent e.status = PTRACE_EVENT_CLONE)
    (hnz : lookupZ st.zygote_map e.pid = none) (ha : e.pid ∈ st.attaches) :
    check_pid e.fs st e.pid = (st, [], false) ∧
    proc_monitor_step e st =
      (st, [Action.getEventMsg e.pid, Action.ptraceCont e.pid 0]) := by
  have hcp : check_pid e.fs st e.pid = (st, [], false) := by
    unfold check_pid
    rw [hc]
    simp [hz]
  refine ⟨hcp, ?_⟩
  unfold proc_monitor_step
  rw [if_neg (by simp [hs, hd])]
  rw [if_pos ⟨hsig, by rw [hev]; decide⟩]
  rw [hnz]
  simp only [Option.isSome_none, Bool.false_eq_true, if_false]
  rw [if_pos hev, if_pos ha, hcp]
  rfl

/-- C1 counterexample: pid 102 has command line `zygote64`; the claim says
`check_pid` schedules a plain detach, removes 102 from `attaches` and
returns "not a target", but the code issues no detach action, leaves 102 in
`attaches` and returns `false` (keep tracing). -/
theorem c1_counterexample :
    check_pid fsZ stZ 102 = (stZ, [], false) ∧
    102 ∈ (check_pid fsZ stZ 102).1.attaches ∧
    (check_pid fsZ stZ 102).2.1 = [] := by
  decide

/-- Witness for C1 at pid 102 with command line `zygote64`. -/
theorem c1_witness :
    check_pid fsZ stZ 102 = (stZ, [], false) ∧
    proc_monitor_step ⟨102, STATUS_CLONE, 0, fsZ⟩ stZ =
      (stZ, [Action.getEventMsg 102, Action.ptraceCont 102 0]) :=
  c1_zygote_child_kept stZ ⟨102, STATUS_CLONE, 0, fsZ⟩ "zygote64"
    (by decide) (by decide) (by decide) (by decide) (by decide) (by decide)
    (by decide) (by decide)

/-- C3: the package-database parser is not total: an attribute value with no
closing double quote makes the C code dereference the null `strchr` result
(`*tok = 0`), modelled as the `none` outcome — the record does not merely
terminate early, the process crashes.  Unknown keys are indeed skipped, as
the second conjunct shows on a record with an extra `other` attribute. -/
theorem c3_unclosed_quote_crash :
    parse_packages_xml [("com.x", "px")] [] "<package name=\"com.x>" = none ∧
    parse_packages_xml [("com.x", "px")] []
        "<package other=\"z\" name=\"com.x\" userId=\"10\">" =
      some [(10, ["px"])] := by
  refine ⟨?_, ?_⟩ <;>
    · simp [parse_packages_xml, str_starts, parseAttrs, splitOnce, parse_int, emplace]
      <;> decide

/-- C4 (amended): when `/proc/<pid>/cmdline` cannot be opened, `check_pid`
returns `true` with no state change and no action — the pid is not detached
and stays in `attaches` — and the trace loop continues without even resuming
the tracee. -/
theorem c4_vanished_cmdline_continue (st : MonState) (e : TraceEvent)
    (hc : e.fs.cmdline e.pid = none)
    (hs : wifstopped e.status = true) (hd : e.pid ∉ st.detaches)
    (hsig : wstopsig e.status = SIGTRAP) (hev : wevent e.status = PTRACE_EVENT_CLONE)
    (hnz : lookupZ st.zygote_map e.pid = none) (ha : e.pid ∈ st.attaches) :
    check_pid e.fs st e.pid = (st, [], true) ∧
    proc_monitor_step e st = (st, [Action.getEventMsg e.pid]) := by
  have hcp : check_pid e.fs st e.pid = (st, [], true) := by
    unfold check_pid
    rw [hc]
  refine ⟨hcp, ?_⟩
  unfold proc_monitor_step
  rw [if_neg (by simp [hs, hd])]
  rw [if_pos ⟨hsig, by rw [hev]; decide⟩]
  rw [hnz]
  simp only [Option.isSome_none, Bool.false_eq_true, if_false]
  rw [if_pos hev, if_pos ha, hcp]
  rfl

/-- C4 counterexample: with pid 101 vanished, classification neither
detaches nor removes 101 from `attaches` (the outcome is *not* the same as
for an ordinary non-target, for which the last conjunct shows 101 leaving
`attaches`). -/
theorem c4_counterexample :
    check_pid fs0 stA101 101 = (stA101, [], true) ∧
    101 ∈ (check_pid fs0 stA101 101).1.attaches ∧
    (check_pid fs0 stA101 101).2.1 = [] ∧
    101 ∉ (check_pid fsFoo stA101 101).1.attaches := by
  decide

/-- Witness for C4 at pid 101 with a vanished command line. -/
theorem c4_witness :
    check_pid fs0 stA101 101 = (stA101, [], true) ∧
    proc_monitor_step ⟨101, STATUS_CLONE, 0, fs0⟩ stA101 =
      (stA101, [Action.getEventMsg 101]) :=
  c4_vanished_cmdline_continue stA101 ⟨101, STATUS_CLONE, 0, fs0⟩
    (by decide) (by decide) (by decide) (by decide) (by decide) (by decide)
    (by decide)

/-- C5: a wait status that is not a ptrace-stop, or a pid marked in
`detaches`, causes an unconditional detach with no signal, with the pid
removed from both `attaches` and `detaches` before the loop continues. -/
theorem c5_detach_request (e : TraceEvent) (st : MonState)
    (h : wifstopped e.status = false ∨ e.pid ∈ st.detaches) :
    proc_monitor_step e st =
      ({ st with attaches := st.attaches.erase e.pid,
                 detaches := st.detaches.erase e.pid },
       [Action.ptraceDetach e.pid 0]) := by
  unfold proc_monitor_step
  rw [if_pos h]
  rfl

/-- Witness for C5: pid 3 reaped with an exit status (not a ptrace-stop). -/
theorem c5_witness :
    (wifstopped 0 = false ∨ (3 : ℕ) ∈ st0.detaches) ∧
    proc_monitor_step ⟨3, 0, 0, fs0⟩ st0 =
      ({ st0 with attaches := st0.attaches.erase 3,
                  detaches := st0.detaches.erase 3 },
       [Action.ptraceDetach 3 0]) :=
  ⟨Or.inl (by decide), c5_detach_request ⟨3, 0, 0, fs0⟩ st0 (Or.inl (by decide))⟩

/-- C7: refreshing the UidProcessMap twice in a row from the same package
database lines yields exactly the state a single refresh yields: the map is
cleared and rebuilt in full from the rule set and the file alone. -/
theorem c7_refresh_idempotent (lines : List String) (st st' : MonState)
    (h : update_uid_map lines st = some st') :
    update_uid_map lines st' = some st' := by
  unfold update_uid_map at h ⊢
  cases hfold : lines.foldl
      (fun acc line => acc.bind fun m => parse_packages_xml st.hide_set m line)
      (some ([] : UidMap)) with
  | none => rw [hfold] at h; simp at h
  | some m =>
    rw [hfold] at h
    simp only [Option.map_some'] at h
    have hst : st' = { st with uid_proc_map := m } := by
      cases h
      rfl
    subst hst
    show (lines.foldl
        (fun acc line => acc.bind fun mm => parse_packages_xml st.hide_set mm line)
        (some ([] : UidMap))).map
        (fun mm => { st with uid_proc_map := mm }) = some { st with uid_proc_map := m }
    rw [hfold]
    rfl

/-- Rules and lines used by the C7 witness. -/
def stH : MonState := ⟨[("com.x", "px")], [], [], ∅, ∅⟩

def stH' : MonState := ⟨[("com.x", "px")], [], [(10123, ["px"])], ∅, ∅⟩

def linesW : List String := ["<package name=\"com.x\" userId=\"10123\">"]

/-- Witness for C7 on a one-record database. -/
theorem c7_witness :
    update_uid_map linesW stH = some stH' ∧
    update_uid_map linesW stH' = some stH' :=
  have hp : parse_packages_xml [("com.x", "px")] []
      "<package name=\"com.x\" userId=\"10123\">" = some [(10123, ["px"])] := by
    simp [parse_packages_xml, str_starts, parseAttrs, splitOnce, parse_int, emplace]
    decide
  have h : update_uid_map linesW stH = some stH' := by
    show (parse_packages_xml [("com.x", "px")] []
        "<package name=\"com.x\" userId=\"10123\">").map
      (fun mm => { stH with uid_proc_map := mm }) = some stH'
    rw [hp]
    rfl
  ⟨h, c7_refresh_idempotent linesW stH stH' h⟩

theorem lookupZ_none_forall {m : List (ℕ × NsId)} {pid : ℕ}
    (h : lookupZ m pid = none) : ∀ z ∈ m, z.1 ≠ pid := by
  unfold lookupZ at h
  rw [Option.map_eq_none', List.find?_eq_none] at h
  intro z hz
  have := h z hz
  simpa using this

theorem updateZ_of_not_mem {m : List (ℕ × NsId)} {pid : ℕ} (n : NsId)
    (h : ∀ z ∈ m, z.1 ≠ pid) : updateZ m pid n = m := by
  induction m with
  | nil => rfl
  | cons z zs ih =>
    show (if z.1 = pid then (pid, n) else z) :: updateZ zs pid n = z :: zs
    rw [if_neg (h z (by simp))]
    rw [ih (fun w hw => h w (by simp [hw]))]

theorem lookupZ_append_self {m : List (ℕ × NsId)} {pid : ℕ} (n : NsId)
    (h : lookupZ m pid = none) : lookupZ (m ++ [(pid, n)]) pid = some n := by
  unfold lookupZ at *
  rw [List.find?_append]
  rw [Option.map_eq_none'] at h
  rw [h]
  simp

theorem updateZ_append_self {m : List (ℕ × NsId)} {pid : ℕ} (n1 n2 : NsId)
    (h : lookupZ m pid = none) :
    updateZ (m ++ [(pid, n1)]) pid n2 = m ++ [(pid, n2)] := by
  unfold updateZ
  rw [List.map_append]
  rw [show List.map (fun z => if z.1 = pid then (pid, n2) else z) m = updateZ m pid n2 from rfl]
  rw [updateZ_of_not_mem n2 (lookupZ_none_forall h)]
  simp

theorem lookupZ_updateZ {m : List (ℕ × NsId)} {pid : ℕ} {v : NsId} (n : NsId)
    (h : lookupZ m pid = some v) : lookupZ (updateZ m pid n) pid = some n := by
  induction m with
  | nil => simp [lookupZ] at h
  | cons z zs ih =>
    by_cases hz : z.1 = pid
    · show ((((if z.1 = pid then (pid, n) else z) :: updateZ zs pid n).find?
        (fun e => e.1 == pid)).map Prod.snd) = some n
      rw [if_pos hz]
      simp [List.find?_cons]
    · unfold lookupZ at h
      rw [List.find?_cons] at h
      rw [show ((z.1 == pid) = false) from by simpa using hz] at h
      have := ih h
      show ((((if z.1 = pid then (pid, n) else z) :: updateZ zs pid n).find?
        (fun e => e.1 == pid)).map Prod.snd) = some n
      rw [if_neg hz]
      unfold lookupZ at this
      rw [List.find?_cons, show ((z.1 == pid) = false) from by simpa using hz]
      exact this

theorem updateZ_updateZ (m : List (ℕ × NsId)) (pid : ℕ) (n1 n2 : NsId) :
    updateZ (updateZ m pid n1) pid n2 = updateZ m pid n2 := by
  unfold updateZ
  rw [List.map_map]
  apply List.map_congr_left
  intro z _
  by_cases hz : z.1 = pid <;> simp [hz]

/-- C8: registering a spawner twice is equivalent to a single registration
that stores the latest successfully observed mount-namespace identity: the
resulting registry state coincides, and the concatenated actions of both
calls are exactly the actions of the single call (at most one attach
sequence is ever issued). -/
theorem c8_register_register (fs1 fs2 : ProcFS) (st : MonState) (pid : ℕ)
    (n2 : NsId) (h2 : fs2.ns pid = some n2) :
    (new_zygote fs2 (new_zygote fs1 st pid).1 pid).1 = (new_zygote fs2 st pid).1 ∧
    (new_zygote fs1 st pid).2 ++ (new_zygote fs2 (new_zygote fs1 st pid).1 pid).2 =
      (new_zygote fs2 st pid).2 := by
  cases h1 : fs1.ns pid with
  | none =>
    have hfirst : new_zygote fs1 st pid = (st, []) := by
      unfold new_zygote
      rw [h1]
    rw [hfirst]
    simp
  | some n1 =>
    cases hl : lookupZ st.zygote_map pid with
    | some v =>
      have hfirst : new_zygote fs1 st pid =
          ({ st with zygote_map := updateZ st.zygote_map pid n1 }, []) := by
        unfold new_zygote
        rw [h1, hl]
      have hsec : lookupZ (updateZ st.zygote_map pid n1) pid = some n1 :=
        lookupZ_updateZ n1 hl
      rw [hfirst]
      unfold new_zygote
      rw [h2, hl, hsec]
      simp [updateZ_updateZ]
    | none =>
      have hfirst : new_zygote fs1 st pid =
          ({ st with zygote_map := st.zygote_map ++ [(pid, n1)] },
           [Action.ptraceAttach pid, Action.waitFor pid,
            Action.ptraceSetOpts pid ZYGOTE_OPTS, Action.ptraceCont pid 0]) := by
        unfold new_zygote
        rw [h1, hl]
      have hsec : lookupZ (st.zygote_map ++ [(pid, n1)]) pid = some n1 :=
        lookupZ_append_self n1 hl
      rw [hfirst]
      unfold new_zygote
      rw [h2, hl, hsec]
      simp [updateZ_append_self n1 n2 hl]

/-- Spawner procfs views for the C8 witness: two successive namespace
observations of pid 100. -/
def fsN1 : ProcFS :=
  ⟨fun _ => none, fun _ => emptyStat, fun p => if p = 100 then some (5, 7) else none,
   fun p => [p], fun _ => false⟩

def fsN2 : ProcFS :=
  ⟨fun _ => none, fun _ => emptyStat, fun p => if p = 100 then some (5, 8) else none,
   fun p => [p], fun _ => false⟩

/-- Witness for C8: pid 100 registered twice across a namespace change. -/
theorem c8_witness :
    (new_zygote fsN2 (new_zygote fsN1 st0 100).1 100).1 = (new_zygote fsN2 st0 100).1 ∧
    (new_zygote fsN1 st0 100).2 ++ (new_zygote fsN2 (new_zygote fsN1 st0 100).1 100).2 =
      (new_zygote fsN2 st0 100).2 :=
  c8_register_register fsN1 fsN2 st0 100 (5, 8) (by decide)

theorem detach_fold_no_agent (fs : ProcFS) (pid q : ℕ) :
    ∀ (l : List ℕ) (acc : MonState × List Action),
      Action.spawnAgent q ∉ acc.2 →
      Action.spawnAgent q ∉ (l.foldl (detachStep fs pid) acc).2 := by
  intro l
  induction l with
  | nil => intro acc h; exact h
  | cons tid ts ih =>
    intro acc h
    simp only [List.foldl_cons]
    apply ih
    unfold detachStep
    by_cases h1 : tid = pid
    · rw [if_pos h1]; exact h
    · rw [if_neg h1]
      by_cases h2 : fs.waitable tid = true
      · rw [if_pos h2]
        intro hmem
        rcases List.mem_append.mp hmem with hm | hm
        · exact h hm
        · simp at hm
      · rw [if_neg h2]
        intro hmem
        rcases List.mem_append.mp hmem with hm | hm
        · exact h hm
        · simp at hm

theorem detach_pid_no_agent (fs : ProcFS) (st : MonState) (pid sig q : ℕ) :
    Action.spawnAgent q ∉ (detach_pid fs st pid sig).2 :=
  detach_fold_no_agent fs pid q (fs.threads pid) _ (by simp)

theorem scan_names_agent_sep (fs : ProcFS) (st : MonState) (pid : ℕ)
    (cmd : String) (ds : ProcStat) (n : NsId) (hns : fs.ns pid = some n) :
    ∀ names, Action.spawnAgent pid ∈ (scan_names fs st pid cmd ds names).2.1 →
      st.zygote_map.any (fun z => z.2.2 = n.2 ∧ z.2.1 = n.1) = false := by
  intro names
  induction names with
  | nil =>
    intro hmem
    exact absurd hmem (detach_pid_no_agent fs st pid 0 pid)
  | cons s rest ih =>
    intro hmem
    by_cases hsc : s = cmd
    · have hm2 : scan_names fs st pid cmd ds (s :: rest) =
          (if st.zygote_map.any (fun z => z.2.2 = n.2 ∧ z.2.1 = n.1) then
            ((detach_pid fs st pid 0).1, (detach_pid fs st pid 0).2, true)
          else
            ((detach_pid fs st pid SIGSTOP).1,
             (detach_pid fs st pid SIGSTOP).2 ++ [Action.spawnAgent pid], true)) := by
        simp only [scan_names]
        rw [if_pos hsc, hns]
      rw [hm2] at hmem
      by_cases hany : st.zygote_map.any (fun z => z.2.2 = n.2 ∧ z.2.1 = n.1) = true
      · rw [if_pos hany] at hmem
        exact absurd hmem (detach_pid_no_agent fs st pid 0 pid)
      · simpa using hany
    · have hm2 : scan_names fs st pid cmd ds (s :: rest) =
          scan_names fs st pid cmd ds rest := by
        simp only [scan_names]
        rw [if_neg hsc]
      rw [hm2] at hmem
      exact ih hmem

theorem scan_names_shared (fs : ProcFS) (st : MonState) (pid : ℕ)
    (cmd : String) (ds : ProcStat) (n : NsId) (hns : fs.ns pid = some n)
    (hsh : st.zygote_map.any (fun z => z.2.2 = n.2 ∧ z.2.1 = n.1) = true) :
    ∀ names, scan_names fs st pid cmd ds names =
      ((detach_pid fs st pid 0).1, (detach_pid fs st pid 0).2, true) := by
  intro names
  induction names with
  | nil => rfl
  | cons s rest ih =>
    by_cases hsc : s = cmd
    · simp only [scan_names]
      rw [if_pos hsc, hns]
      simp only [hsh, if_true]
    · simp only [scan_names]
      rw [if_neg hsc]
      exact ih

/-- C2: classification hands off a target only when its mount-namespace
identity, as successfully read from `/proc/<pid>/ns/mnt`, differs from that
of every registered spawner; and whenever the identity equals some registered
spawner's, a matching non-`zygote` command line still ends in the plain
detach with the "handled, not a target" return. -/
theorem c2_target_ns_separated (fs : ProcFS) (st : MonState) (pid : ℕ)
    (n : NsId) (hns : fs.ns pid = some n) :
    (Action.spawnAgent pid ∈ (check_pid fs st pid).2.1 →
      ∀ z ∈ st.zygote_map, z.2 ≠ n) ∧
    (∀ cmd, fs.cmdline pid = some cmd → cmd.take 6 ≠ "zygote" →
      (∃ z ∈ st.zygote_map, z.2 = n) →
      check_pid fs st pid =
        ((detach_pid fs st pid 0).1, (detach_pid fs st pid 0).2, true)) := by
  constructor
  · intro hmem z hz heq
    cases hc : fs.cmdline pid with
    | none => simp only [check_pid, hc] at hmem; simp at hmem
    | some cmd =>
      simp only [check_pid, hc] at hmem
      by_cases hzg : cmd.take 6 = "zygote"
      · rw [if_pos hzg] at hmem; simp at hmem
      · rw [if_neg hzg] at hmem
        cases hu : lookupU st.uid_proc_map ((fs.dirStat pid).uid % 100000) with
        | none =>
          simp only [hu] at hmem
          exact absurd hmem (detach_pid_no_agent fs st pid 0 pid)
        | some names =>
          simp only [hu] at hmem
          have hfalse := scan_names_agent_sep fs st pid cmd (fs.dirStat pid) n hns names hmem
          rw [List.any_eq_false] at hfalse
          have := hfalse z hz
          simp [heq] at this
  · intro cmd hc hzg hex
    obtain ⟨z, hz, hzeq⟩ := hex
    have hany : st.zygote_map.any (fun w => w.2.2 = n.2 ∧ w.2.1 = n.1) = true := by
      rw [List.any_eq_true]
      exact ⟨z, hz, by simp [hzeq]⟩
    simp only [check_pid, hc]
    rw [if_neg hzg]
    cases hu : lookupU st.uid_proc_map ((fs.dirStat pid).uid % 100000) with
    | none => simp only [hu]
    | some names =>
      simp only [hu]
      exact scan_names_shared fs st pid cmd (fs.dirStat pid) n hns hany names

/-- Procfs and state for the C2 witness: pid 101 matches a rule and lives in
namespace `(9, 9)` while the only spawner has `(5, 7)`. -/
def fsT : ProcFS :=
  ⟨fun p => if p = 101 then some "com.x" else none,
   fun _ => ⟨10123, 1, 2⟩,
   fun p => if p = 101 then some (9, 9) else none,
   fun p => [p], fun _ => false⟩

def stT : MonState :=
  ⟨[("com.x", "com.x")], [(100, (5, 7))], [(10123, ["com.x"])], {101}, ∅⟩

/-- Witness for C2 at pid 101 with namespace `(9, 9)`. -/
theorem c2_witness :
    (Action.spawnAgent 101 ∈ (check_pid fsT stT 101).2.1 →
      ∀ z ∈ stT.zygote_map, z.2 ≠ ((9 : ℕ), (9 : ℕ))) ∧
    (∀ cmd, fsT.cmdline 101 = some cmd → cmd.take 6 ≠ "zygote" →
      (∃ z ∈ stT.zygote_map, z.2 = ((9 : ℕ), (9 : ℕ))) →
      check_pid fsT stT 101 =
        ((detach_pid fsT stT 101 0).1, (detach_pid fsT stT 101 0).2, true)) :=
  c2_target_ns_separated fsT stT 101 (9, 9) (by decide)

/-- C9: the two bitsets have exactly `PID_MAX = 32768` entries, so indexing
is in bounds only below 32768; a spawner fork event whose child pid is at
least `PID_MAX` makes the loop write `attaches[msg]` out of bounds, and a
not-yet-waitable thread tid at least `PID_MAX` makes `detach_pid` write
`detaches[tid]` out of bounds. -/
theorem c9_bitset_bounds :
    PID_MAX = 32768 ∧
    (∀ (e : TraceEvent) (st : MonState),
      wifstopped e.status = true → e.pid ∉ st.detaches →
      wstopsig e.status = SIGTRAP → wevent e.status = PTRACE_EVENT_FORK →
      (lookupZ st.zygote_map e.pid).isSome = true → PID_MAX ≤ e.msg →
      ∃ i ∈ proc_monitor_bit_ops e st, PID_MAX ≤ i) ∧
    (∀ (fs : ProcFS) (pid tid : ℕ),
      tid ∈ fs.threads pid → tid ≠ pid → fs.waitable tid = false →
      PID_MAX ≤ tid → ∃ i ∈ detach_pid_bit_ops fs pid, PID_MAX ≤ i) := by
  refine ⟨rfl, ?_, ?_⟩
  · intro e st hs hd hsig hev hz hmsg
    refine ⟨e.msg, ?_, hmsg⟩
    unfold proc_monitor_bit_ops
    rw [if_neg (by simp [hs])]
    simp only [List.mem_cons]
    right
    rw [if_neg hd]
    rw [if_pos ⟨hsig, by rw [hev]; decide⟩]
    rw [if_pos hz]
    rw [if_pos (Or.inl hev)]
    simp
  · intro fs pid tid hmem hne hw hge
    refine ⟨tid, ?_, hge⟩
    unfold detach_pid_bit_ops
    simp only [List.mem_cons, List.mem_filter]
    right
    refine ⟨hmem, ?_⟩
    simp [hne, hw]

/-- Spawner-registry state for the C9 witness. -/
def stFork1 : MonState := ⟨[], [(100, (5, 7))], [], ∅, ∅⟩

/-- Thread table for the C9 witness: pid 101 has a sibling thread 40000. -/
def fsBig : ProcFS :=
  ⟨fun _ => none, fun _ => emptyStat, fun _ => none,
   fun p => if p = 101 then [101, 40000] else [p], fun _ => false⟩

/-- Witness for C9: fork message 40000 and thread tid 40000, both beyond
`PID_MAX`. -/
theorem c9_witness :
    (∃ i ∈ proc_monitor_bit_ops ⟨100, STATUS_FORK, 40000, fs0⟩ stFork1, PID_MAX ≤ i) ∧
    (∃ i ∈ detach_pid_bit_ops fsBig 101, PID_MAX ≤ i) :=
  ⟨c9_bitset_bounds.2.1 ⟨100, STATUS_FORK, 40000, fs0⟩ stFork1
      (by decide) (by decide) (by decide) (by decide) (by decide) (by decide),
   c9_bitset_bounds.2.2 fsBig 101 40000 (by decide) (by decide) (by decide)
      (by decide)⟩

theorem detachStep_attaches (fs : ProcFS) (pid : ℕ) (acc : MonState × List Action)
    (tid : ℕ) : (detachStep fs pid acc tid).1.attaches = acc.1.attaches := by
  unfold detachStep
  by_cases h1 : tid = pid
  · rw [if_pos h1]
  · rw [if_neg h1]
    by_cases h2 : fs.waitable tid = true
    · rw [if_pos h2]
    · rw [if_neg h2]

theorem detachStep_disjoint (fs : ProcFS) (pid : ℕ) (acc : MonState × List Action)
    (tid : ℕ) (hta : tid ≠ pid → tid ∉ acc.1.attaches)
    (hd : Disjoint acc.1.attaches acc.1.detaches) :
    Disjoint (detachStep fs pid acc tid).1.attaches
      (detachStep fs pid acc tid).1.detaches := by
  unfold detachStep
  by_cases h1 : tid = pid
  · rw [if_pos h1]; exact hd
  · rw [if_neg h1]
    by_cases h2 : fs.waitable tid = true
    · rw [if_pos h2]; exact hd
    · rw [if_neg h2]
      refine Finset.disjoint_insert_right.mpr ⟨hta h1, hd⟩

theorem detach_fold_disjoint (fs : ProcFS) (pid : ℕ) :
    ∀ (l : List ℕ) (acc : MonState × List Action),
      (∀ tid ∈ l, tid ≠ pid → tid ∉ acc.1.attaches) →
      Disjoint acc.1.attaches acc.1.detaches →
      Disjoint (l.foldl (detachStep fs pid) acc).1.attaches
        (l.foldl (detachStep fs pid) acc).1.detaches := by
  intro l
  induction l with
  | nil => intro acc _ hd; exact hd
  | cons tid ts ih =>
    intro acc hl hd
    simp only [List.foldl_cons]
    apply ih
    · intro t ht hne
      rw [detachStep_attaches]
      exact hl t (by simp [ht]) hne
    · exact detachStep_disjoint fs pid acc tid (fun hne => hl tid (by simp) hne) hd

theorem detach_pid_disjoint (fs : ProcFS) (st : MonState) (pid sig : ℕ)
    (hd : Disjoint st.attaches st.detaches)
    (ht : ∀ tid ∈ fs.threads pid, tid ≠ pid → tid ∉ st.attaches) :
    Disjoint (detach_pid fs st pid sig).1.attaches
      (detach_pid fs st pid sig).1.detaches := by
  apply detach_fold_disjoint
  · intro t htm hne hc
    exact ht t htm hne (Finset.mem_of_mem_erase hc)
  · exact hd.mono_left (Finset.erase_subset _ _)

theorem scan_names_state (fs : ProcFS) (st : MonState) (pid : ℕ) (cmd : String)
    (ds : ProcStat) : ∀ names, ∃ sig,
      (scan_names fs st pid cmd ds names).1 = (detach_pid fs st pid sig).1 := by
  intro names
  induction names with
  | nil => exact ⟨0, rfl⟩
  | cons s rest ih =>
    by_cases hsc : s = cmd
    · simp only [scan_names]
      rw [if_pos hsc]
      split
      · exact ⟨0, rfl⟩
      · exact ⟨SIGSTOP, rfl⟩
    · simp only [scan_names]
      rw [if_neg hsc]
      exact ih

theorem check_pid_state (fs : ProcFS) (st : MonState) (pid : ℕ) :
    (check_pid fs st pid).1 = st ∨
    ∃ sig, (check_pid fs st pid).1 = (detach_pid fs st pid sig).1 := by
  cases hc : fs.cmdline pid with
  | none => left; simp only [check_pid, hc]
  | some cmd =>
    by_cases hzg : cmd.take 6 = "zygote"
    · left; simp only [check_pid, hc]; rw [if_pos hzg]
    · cases hu : lookupU st.uid_proc_map ((fs.dirStat pid).uid % 100000) with
      | none =>
        right
        refine ⟨0, ?_⟩
        simp only [check_pid, hc]
        rw [if_neg hzg]
        simp only [hu]
      | some names =>
        right
        have h := scan_names_state fs st pid cmd (fs.dirStat pid) names
        obtain ⟨sig, hsig⟩ := h
        refine ⟨sig, ?_⟩
        simp only [check_pid, hc]
        rw [if_neg hzg]
        simp only [hu]
        exact hsig

theorem new_zygote_sets (fs : ProcFS) (st : MonState) (pid : ℕ) :
    (new_zygote fs st pid).1.attaches = st.attaches ∧
    (new_zygote fs st pid).1.detaches = st.detaches := by
  unfold new_zygote
  cases fs.ns pid with
  | none => exact ⟨rfl, rfl⟩
  | some n =>
    cases lookupZ st.zygote_map pid with
    | some v => exact ⟨rfl, rfl⟩
    | none => exact ⟨rfl, rfl⟩

theorem proc_monitor_step_state (e : TraceEvent) (st : MonState) :
    (proc_monitor_step e st).1 = (detachAndCont st e.pid).1 ∨
    (proc_monitor_step e st).1 =
      (detachAndCont { st with zygote_map := eraseZ st.zygote_map e.pid } e.pid).1 ∨
    (proc_monitor_step e st).1 = { st with attaches := insert e.msg st.attaches } ∨
    (proc_monitor_step e st).1 = (check_pid e.fs st e.pid).1 ∨
    (proc_monitor_step e st).1 = st := by
  by_cases c1 : wifstopped e.status = false ∨ e.pid ∈ st.detaches
  · left
    unfold proc_monitor_step
    rw [if_pos c1]
  · by_cases c2 : wstopsig e.status = SIGTRAP ∧ wevent e.status ≠ 0
    · by_cases c3 : (lookupZ st.zygote_map e.pid).isSome = true
      · by_cases c4 : wevent e.status = PTRACE_EVENT_FORK ∨
            wevent e.status = PTRACE_EVENT_VFORK
        · right; right; left
          unfold proc_monitor_step
          rw [if_neg c1, if_pos c2, if_pos c3, if_pos c4]
        · right; left
          unfold proc_monitor_step
          rw [if_neg c1, if_pos c2, if_pos c3, if_neg c4]
      · by_cases c5 : wevent e.status = PTRACE_EVENT_CLONE
        · by_cases c6 : e.pid ∈ st.attaches
          · right; right; right; left
            unfold proc_monitor_step
            rw [if_neg c1, if_pos c2, if_neg c3, if_pos c5, if_pos c6]
            dsimp only
            split <;> rfl
          · right; right; right; right
            unfold proc_monitor_step
            rw [if_neg c1, if_pos c2, if_neg c3, if_pos c5, if_neg c6]
        · left
          unfold proc_monitor_step
          rw [if_neg c1, if_pos c2, if_neg c3, if_neg c5]
    · right; right; right; right
      unfold proc_monitor_step
      rw [if_neg c1, if_neg c2]
      by_cases c8 : wstopsig e.status = SIGSTOP
      · rw [if_pos c8]
      · rw [if_neg c8]

theorem sysStep_disjoint (st : MonState) (ev : SysEvent)
    (hd : Disjoint st.attaches st.detaches) (hok : eventOk st ev = true) :
    Disjoint (sysStep st ev).attaches (sysStep st ev).detaches := by
  cases ev with
  | discover fs pid =>
    have h := new_zygote_sets fs st pid
    simp only [sysStep]
    rw [h.1, h.2]
    exact hd
  | trace e =>
    unfold eventOk at hok
    rw [Bool.and_eq_true] at hok
    obtain ⟨hmsg, hthreads⟩ := hok
    have hmsg' : e.msg ∉ st.detaches := by simpa using hmsg
    have hthreads' : ∀ tid ∈ e.fs.threads e.pid, tid ≠ e.pid → tid ∉ st.attaches := by
      intro tid ht hne
      have h := List.all_eq_true.mp hthreads tid ht
      rcases Bool.or_eq_true_iff.mp h with h1 | h1
      · exact absurd (by simpa using h1) hne
      · simpa using h1
    have hcp : Disjoint (check_pid e.fs st e.pid).1.attaches
        (check_pid e.fs st e.pid).1.detaches := by
      rcases check_pid_state e.fs st e.pid with h | ⟨sig, h⟩
      · rw [h]; exact hd
      · rw [h]; exact detach_pid_disjoint e.fs st e.pid sig hd hthreads'
    have herase : ∀ (s : MonState) (p : ℕ), Disjoint s.attaches s.detaches →
        Disjoint (detachAndCont s p).1.attaches (detachAndCont s p).1.detaches := by
      intro s p hs
      exact (hs.mono_left (Finset.erase_subset _ _)).mono_right
        (Finset.erase_subset _ _)
    simp only [sysStep]
    rcases proc_monitor_step_state e st with h | h | h | h | h <;> rw [h]
    · exact herase st e.pid hd
    · exact herase { st with zygote_map := eraseZ st.zygote_map e.pid } e.pid hd
    · exact Finset.disjoint_insert_left.mpr ⟨hmsg', hd⟩
    · exact hcp
    · exact hd

/-- The spawner procfs for the C6 scenario: pid 100 is a zygote in
namespace `(5, 7)`. -/
def fsZyg : ProcFS :=
  ⟨fun _ => none, fun _ => emptyStat,
   fun p => if p = 100 then some (5, 7) else none, fun p => [p], fun _ => false⟩

/-- The child procfs for the C6 scenario: pid 101 runs `com.y` with a
not-yet-waitable sibling thread 57. -/
def fsCh : ProcFS :=
  ⟨fun p => if p = 101 then some "com.y" else none, fun _ => emptyStat,
   fun _ => none, fun p => if p = 101 then [101, 57] else [p], fun _ => false⟩

/-- Event sequence reusing tid 57 as a fork-event child pid while its detach
request is still pending. -/
def evsCollision : List SysEvent :=
  [SysEvent.discover fsZyg 100,
   SysEvent.trace ⟨100, STATUS_FORK, 101, fsZyg⟩,
   SysEvent.trace ⟨101, STATUS_CLONE, 0, fsCh⟩,
   SysEvent.trace ⟨100, STATUS_FORK, 57, fsZyg⟩]

/-- C6 counterexample: after a target fan-out marks tid 57 in `detaches`, a
spawner fork event whose message pid is 57 puts 57 into `attaches` without
clearing `detaches`, so 57 is simultaneously in both sets. -/
theorem c6_counterexample :
    57 ∈ (runEvents st0 evsCollision).attaches ∧
    57 ∈ (runEvents st0 evsCollision).detaches := by
  decide

/-- C6 (amended): the AttachSet/DetachSet disjointness is an invariant of
every event sequence in which each fork-event message pid is not currently
awaiting detach and each observed sibling thread is not currently monitored
(freshness the kernel provides while pids are not reused inside the
detach window). -/
theorem c6_disjoint_invariant (evs : List SysEvent) (st : MonState)
    (hd : Disjoint st.attaches st.detaches) (hok : runOk st evs = true) :
    Disjoint (runEvents st evs).attaches (runEvents st evs).detaches := by
  induction evs generalizing st with
  | nil => exact hd
  | cons ev evs ih =>
    unfold runOk at hok
    rw [Bool.and_eq_true] at hok
    unfold runEvents
    simp only [List.foldl_cons]
    exact ih (sysStep st ev) (sysStep_disjoint st ev hd hok.1) hok.2

/-- Fresh event sequence for the C6 witness. -/
def evsW6 : List SysEvent :=
  [SysEvent.discover fsZyg 100,
   SysEvent.trace ⟨100, STATUS_FORK, 101, fsZyg⟩]

/-- Witness for C6 on a fresh discovery-and-fork sequence. -/
theorem c6_witness :
    Disjoint st0.attaches st0.detaches ∧ runOk st0 evsW6 = true ∧
    Disjoint (runEvents st0 evsW6).attaches (runEvents st0 evsW6).detaches :=
  ⟨by decide, by decide, c6_disjoint_invariant evsW6 st0 (by decide) (by decide)⟩

theorem attrPairsOf_eq_nil_of_no_eql {s : List Char}
    (h1 : splitOnce '=' s = none) : attrPairsOf s = [] := by
  rw [attrPairsOf.eq_def]
  split
  · rfl
  · next key rest heq =>
    rw [h1] at heq
    simp at heq

theorem attrPairsOf_eq_nil_of_no_quote {s key rest : List Char}
    (h1 : splitOnce '=' s = some (key, rest))
    (h2 : splitOnce '"' (rest.drop 1) = none) : attrPairsOf s = [] := by
  rw [attrPairsOf.eq_def]
  split
  · rfl
  · next key2 rest2 heq =>
    rw [h1] at heq
    simp only [Option.some.injEq, Prod.mk.injEq] at heq
    obtain ⟨hk, hr⟩ := heq
    subst hk
    subst hr
    split
    · rfl
    · next v2 r2 heq2 =>
      rw [h2] at heq2
      simp at heq2

theorem attrPairsOf_cons {s key rest value rest2 : List Char}
    (h1 : splitOnce '=' s = some (key, rest))
    (h2 : splitOnce '"' (rest.drop 1) = some (value, rest2)) :
    attrPairsOf s = (String.mk key, String.mk value) :: attrPairsOf (rest2.drop 1) := by
  rw [attrPairsOf.eq_def]
  split
  · next heq =>
    rw [h1] at heq
    simp at heq
  · next key2 rest2x heq =>
    rw [h1] at heq
    simp only [Option.some.injEq, Prod.mk.injEq] at heq
    obtain ⟨hk, hr⟩ := heq
    subst hk
    subst hr
    split
    · next heq2 =>
      rw [h2] at heq2
      simp at heq2
    · next v2 r2 heq2 =>
      rw [h2] at heq2
      simp only [Option.some.injEq, Prod.mk.injEq] at heq2
      obtain ⟨hv, hr2⟩ := heq2
      subst hv
      subst hr2
      rfl

theorem parseAttrs_unfold_none {hide : List (String × String)} {s : List Char}
    {pkg : String} {m : UidMap} (h1 : splitOnce '=' s = none) :
    parseAttrs hide s pkg m = some m := by
  rw [parseAttrs.eq_def]
  split
  · rfl
  · next key rest heq =>
    rw [h1] at heq
    simp at heq

theorem parseAttrs_unfold_noquote {hide : List (String × String)} {s : List Char}
    {pkg : String} {m : UidMap} {key rest : List Char}
    (h1 : splitOnce '=' s = some (key, rest))
    (h2 : splitOnce '"' (rest.drop 1) = none) :
    parseAttrs hide s pkg m = none := by
  rw [parseAttrs.eq_def]
  split
  · next heq =>
    rw [h1] at heq
    simp at heq
  · next key2 rest2x heq =>
    rw [h1] at heq
    simp only [Option.some.injEq, Prod.mk.injEq] at heq
    obtain ⟨hk, hr⟩ := heq
    subst hk
    subst hr
    split
    · rfl
    · next v2 r2 heq2 =>
      rw [h2] at heq2
      simp at heq2

theorem parseAttrs_unfold_step {hide : List (String × String)} {s : List Char}
    {pkg : String} {m : UidMap} {key rest value rest2 : List Char}
    (h1 : splitOnce '=' s = some (key, rest))
    (h2 : splitOnce '"' (rest.drop 1) = some (value, rest2)) :
    parseAttrs hide s pkg m =
      (if String.mk key = "name" then
        if (match hide.find? (fun hd => hd.1 == String.mk value) with
            | some hd => hd.1
            | none => pkg) = "" then some m
        else parseAttrs hide (rest2.drop 1)
          (match hide.find? (fun hd => hd.1 == String.mk value) with
           | some hd => hd.1
           | none => pkg) m
      else if String.mk key = "userId" ∨ String.mk key = "sharedUserId" then
        parseAttrs hide (rest2.drop 1) pkg
          (hide.foldl (fun acc hd =>
            if hd.1 = pkg then emplace acc (parse_int (String.mk value)) hd.2
            else acc) m)
      else parseAttrs hide (rest2.drop 1) pkg m) := by
  rw [parseAttrs.eq_def]
  split
  · next heq =>
    rw [h1] at heq
    simp at heq
  · next key2 rest2x heq =>
    rw [h1] at heq
    simp only [Option.some.injEq, Prod.mk.injEq] at heq
    obtain ⟨hk, hr⟩ := heq
    subst hk
    subst hr
    split
    · next heq2 =>
      rw [h2] at heq2
      simp at heq2
    · next v2 r2 heq2 =>
      rw [h2] at heq2
      simp only [Option.some.injEq, Prod.mk.injEq] at heq2
      obtain ⟨hv, hr2⟩ := heq2
      subst hv
      subst hr2
      rfl

/-- Attribute keys other than `name`, `userId` and `sharedUserId` never touch
the map: if the record's attribute pairs carry no uid key, a successful parse
returns the map unchanged. -/
theorem parseAttrs_no_uid (hide : List (String × String)) (s : List Char)
    (pkg : String) (m : UidMap) :
    (∀ p ∈ attrPairsOf s, p.1 ≠ "userId" ∧ p.1 ≠ "sharedUserId") →
    ∀ m', parseAttrs hide s pkg m = some m' → m' = m := by
  induction s, pkg, m using parseAttrs.induct hide with
  | case1 s pkg m h1 =>
    intro _ m' hp
    rw [parseAttrs_unfold_none h1] at hp
    simp only [Option.some.injEq] at hp
    exact hp.symm
  | case2 s pkg m key rest h1 h2 =>
    intro _ m' hp
    rw [parseAttrs_unfold_noquote h1 h2] at hp
    simp at hp
  | case3 s pkg m key rest h1 value rest2 h2 keyS valS hkey pkgv hpkg =>
    intro _ m' hp
    rw [parseAttrs_unfold_step h1 h2] at hp
    rw [if_pos hkey, if_pos hpkg] at hp
    simp only [Option.some.injEq] at hp
    exact hp.symm
  | case4 s pkg m key rest h1 value rest2 h2 keyS valS hkey pkgv hpkg ih =>
    intro hk m' hp
    rw [parseAttrs_unfold_step h1 h2] at hp
    rw [if_pos hkey, if_neg hpkg] at hp
    refine ih (fun p hpmem => hk p ?_) m' hp
    rw [attrPairsOf_cons h1 h2]
    exact List.mem_cons_of_mem _ hpmem
  | case5 s pkg m key rest h1 value rest2 h2 keyS valS hkey huid uidv mv ih =>
    intro hk m' hp
    have hmem : (String.mk key, String.mk value) ∈ attrPairsOf s := by
      rw [attrPairsOf_cons h1 h2]
      exact List.mem_cons_self _ _
    have hno := hk _ hmem
    rcases huid with h | h
    · exact absurd h hno.1
    · exact absurd h hno.2
  | case6 s pkg m key rest h1 value rest2 h2 keyS hkey huid ih =>
    intro hk m' hp
    rw [parseAttrs_unfold_step h1 h2] at hp
    rw [if_neg hkey, if_neg huid] at hp
    refine ih (fun p hpmem => hk p ?_) m' hp
    rw [attrPairsOf_cons h1 h2]
    exact List.mem_cons_of_mem _ hpmem

theorem uid_fold_empty (uid : ℕ) (m : UidMap) :
    ∀ (hide : List (String × String)), (∀ r ∈ hide, r.1 ≠ "") →
      hide.foldl (fun acc hd => if hd.1 = "" then emplace acc uid hd.2 else acc) m
        = m := by
  intro hide
  induction hide with
  | nil => intro _; rfl
  | cons r rs ih =>
    intro hne
    simp only [List.foldl_cons]
    rw [if_neg (hne r (by simp))]
    exact ih (fun w hw => hne w (by simp [hw]))

/-- If the first `name` attribute of a record matches no rule's package (and
no rule has an empty package name), the attribute loop returns at that point
with the map as it was. -/
theorem parseAttrs_first_name_unmatched (hide : List (String × String))
    (hne : ∀ r ∈ hide, r.1 ≠ "") (s : List Char) (pkg : String) (m : UidMap) :
    pkg = "" →
    ∀ l1 v l2, attrPairsOf s = l1 ++ ("name", v) :: l2 →
      "name" ∉ l1.map Prod.fst → (∀ r ∈ hide, r.1 ≠ v) →
      parseAttrs hide s pkg m = some m := by
  induction s, pkg, m using parseAttrs.induct hide with
  | case1 s pkg m h1 =>
    intro _ l1 v l2 hdec _ _
    rw [attrPairsOf_eq_nil_of_no_eql h1] at hdec
    exact absurd hdec (by simp)
  | case2 s pkg m key rest h1 h2 =>
    intro _ l1 v l2 hdec _ _
    rw [attrPairsOf_eq_nil_of_no_quote h1 h2] at hdec
    exact absurd hdec (by simp)
  | case3 s pkg m key rest h1 value rest2 h2 keyS valS hkey pkgv hpkg =>
    intro _ l1 v l2 _ _ _
    rw [parseAttrs_unfold_step h1 h2]
    rw [if_pos hkey, if_pos hpkg]
  | case4 s pkg m key rest h1 value rest2 h2 keyS valS hkey pkgv hpkg ih =>
    intro hpkg0 l1 v l2 hdec hnm hv
    rw [attrPairsOf_cons h1 h2] at hdec
    cases l1 with
    | nil =>
      simp only [List.nil_append, List.cons.injEq, Prod.mk.injEq] at hdec
      obtain ⟨⟨hk1, hv1⟩, _⟩ := hdec
      have hfind : hide.find? (fun hd => hd.1 == String.mk value) = none := by
        rw [List.find?_eq_none]
        intro r hr
        have := hv r hr
        rw [← hv1] at this
        simpa using this
      have hpkgv : pkgv = pkg := by
        show (match hide.find? (fun hd => hd.1 == String.mk value) with
              | some hd => hd.1
              | none => pkg) = pkg
        rw [hfind]
      exact absurd (hpkgv.trans hpkg0) hpkg
    | cons p l1x =>
      simp only [List.cons_append, List.cons.injEq] at hdec
      obtain ⟨hphead, _⟩ := hdec
      refine absurd ?_ hnm
      rw [List.map_cons, List.mem_cons]
      left
      rw [← hphead]
      exact hkey.symm
  | case5 s pkg m key rest h1 value rest2 h2 keyS valS hkey huid uidv mv ih =>
    intro hpkg0 l1 v l2 hdec hnm hv
    subst hpkg0
    rw [attrPairsOf_cons h1 h2] at hdec
    cases l1 with
    | nil =>
      simp only [List.nil_append, List.cons.injEq, Prod.mk.injEq] at hdec
      exact absurd hdec.1.1 hkey
    | cons p l1x =>
      simp only [List.cons_append, List.cons.injEq] at hdec
      obtain ⟨hphead, htail⟩ := hdec
      rw [parseAttrs_unfold_step h1 h2]
      rw [if_neg hkey, if_pos huid]
      rw [uid_fold_empty (parse_int (String.mk value)) m hide hne]
      have hmv : mv = m := by
        show hide.foldl (fun acc hd =>
          if hd.1 = "" then emplace acc (parse_int (String.mk value)) hd.2
          else acc) m = m
        exact uid_fold_empty _ m hide hne
      have hres := ih rfl l1x v l2 htail
        (fun hc => hnm (by rw [List.map_cons]; exact List.mem_cons_of_mem _ hc)) hv
      rw [hmv] at hres
      exact hres
  | case6 s pkg m key rest h1 value rest2 h2 keyS hkey huid ih =>
    intro hpkg0 l1 v l2 hdec hnm hv
    rw [attrPairsOf_cons h1 h2] at hdec
    cases l1 with
    | nil =>
      simp only [List.nil_append, List.cons.injEq, Prod.mk.injEq] at hdec
      exact absurd hdec.1.1 hkey
    | cons p l1x =>
      simp only [List.cons_append, List.cons.injEq] at hdec
      obtain ⟨hphead, htail⟩ := hdec
      rw [parseAttrs_unfold_step h1 h2]
      rw [if_neg hkey, if_neg huid]
      exact ih hpkg0 l1x v l2 htail
        (fun hc => hnm (by rw [List.map_cons]; exact List.mem_cons_of_mem _ hc)) hv

/-- A record whose `userId`/`sharedUserId` attributes all precede its `name`
attributes contributes nothing to the map (no rule has an empty package). -/
theorem parseAttrs_uid_first (hide : List (String × String))
    (hne : ∀ r ∈ hide, r.1 ≠ "") (s : List Char) (pkg : String) (m : UidMap) :
    pkg = "" →
    ∀ l1 l2, attrPairsOf s = l1 ++ l2 → "name" ∉ l1.map Prod.fst →
      (∀ p ∈ l2, p.1 ≠ "userId" ∧ p.1 ≠ "sharedUserId") →
      ∀ m', parseAttrs hide s pkg m = some m' → m' = m := by
  induction s, pkg, m using parseAttrs.induct hide with
  | case1 s pkg m h1 =>
    intro _ l1 l2 _ _ _ m' hp
    rw [parseAttrs_unfold_none h1] at hp
    simp only [Option.some.injEq] at hp
    exact hp.symm
  | case2 s pkg m key rest h1 h2 =>
    intro _ l1 l2 _ _ _ m' hp
    rw [parseAttrs_unfold_noquote h1 h2] at hp
    simp at hp
  | case3 s pkg m key rest h1 value rest2 h2 keyS valS hkey pkgv hpkg =>
    intro _ l1 l2 _ _ _ m' hp
    rw [parseAttrs_unfold_step h1 h2] at hp
    rw [if_pos hkey, if_pos hpkg] at hp
    simp only [Option.some.injEq] at hp
    exact hp.symm
  | case4 s pkg m key rest h1 value rest2 h2 keyS valS hkey pkgv hpkg ih =>
    intro hpkg0 l1 l2 hdec hnm hl2 m' hp
    rw [attrPairsOf_cons h1 h2] at hdec
    cases l1 with
    | cons p l1x =>
      simp only [List.cons_append, List.cons.injEq] at hdec
      obtain ⟨hphead, _⟩ := hdec
      refine absurd ?_ hnm
      rw [List.map_cons, List.mem_cons]
      left
      rw [← hphead]
      exact hkey.symm
    | nil =>
      simp only [List.nil_append] at hdec
      rw [parseAttrs_unfold_step h1 h2] at hp
      rw [if_pos hkey, if_neg hpkg] at hp
      refine parseAttrs_no_uid hide (rest2.drop 1) pkgv m ?_ m' hp
      intro p hpmem
      refine hl2 p ?_
      rw [← hdec]
      exact List.mem_cons_of_mem _ hpmem
  | case5 s pkg m key rest h1 value rest2 h2 keyS valS hkey huid uidv mv ih =>
    intro hpkg0 l1 l2 hdec hnm hl2 m' hp
    subst hpkg0
    rw [attrPairsOf_cons h1 h2] at hdec
    cases l1 with
    | nil =>
      simp only [List.nil_append] at hdec
      have hmem : (String.mk key, String.mk value) ∈ l2 := by
        rw [← hdec]
        exact List.mem_cons_self _ _
      have hno := hl2 _ hmem
      rcases huid with h | h
      · exact absurd h hno.1
      · exact absurd h hno.2
    | cons p l1x =>
      simp only [List.cons_append, List.cons.injEq] at hdec
      obtain ⟨hphead, htail⟩ := hdec
      rw [parseAttrs_unfold_step h1 h2] at hp
      rw [if_neg hkey, if_pos huid] at hp
      rw [uid_fold_empty (parse_int (String.mk value)) m hide hne] at hp
      have hmv : mv = m := by
        show hide.foldl (fun acc hd =>
          if hd.1 = "" then emplace acc (parse_int (String.mk value)) hd.2
          else acc) m = m
        exact uid_fold_empty _ m hide hne
      have hres := ih rfl l1x l2 htail
        (fun hc => hnm (by rw [List.map_cons]; exact List.mem_cons_of_mem _ hc)) hl2 m'
        (by rw [hmv]; exact hp)
      exact hres.trans hmv
  | case6 s pkg m key rest h1 value rest2 h2 keyS hkey huid ih =>
    intro hpkg0 l1 l2 hdec hnm hl2 m' hp
    rw [attrPairsOf_cons h1 h2] at hdec
    rw [parseAttrs_unfold_step h1 h2] at hp
    rw [if_neg hkey, if_neg huid] at hp
    cases l1 with
    | nil =>
      simp only [List.nil_append] at hdec
      refine ih hpkg0 [] (attrPairsOf (rest2.drop 1)) rfl (by simp) ?_ m' hp
      intro p hpmem
      refine hl2 p ?_
      rw [← hdec]
      exact List.mem_cons_of_mem _ hpmem
    | cons p l1x =>
      simp only [List.cons_append, List.cons.injEq] at hdec
      obtain ⟨hphead, htail⟩ := hdec
      exact ih hpkg0 l1x l2 htail
        (fun hc => hnm (by rw [List.map_cons]; exact List.mem_cons_of_mem _ hc)) hl2 m' hp

/-- C10 (amended): provided no rule's package name is empty, the parser is
attribute-order dependent in exactly this sense: a record contributes
entries only if a `name` attribute precedes its uid attributes (first
conjunct: with all uid attributes before any `name`, a successful parse
leaves the map unchanged), and as soon as a `name` attribute is read while
no earlier `name` has matched, the remainder of the record is skipped
(second conjunct: if the first `name` attribute matches no rule, the parse
returns the untouched map at that point). -/
theorem c10_name_order (hide : List (String × String)) (s : List Char)
    (m : UidMap) (hne : ∀ r ∈ hide, r.1 ≠ "") :
    (∀ l1 l2, attrPairsOf s = l1 ++ l2 → "name" ∉ l1.map Prod.fst →
      (∀ p ∈ l2, p.1 ≠ "userId" ∧ p.1 ≠ "sharedUserId") →
      ∀ m', parseAttrs hide s "" m = some m' → m' = m) ∧
    (∀ l1 v l2, attrPairsOf s = l1 ++ ("name", v) :: l2 →
      "name" ∉ l1.map Prod.fst → (∀ r ∈ hide, r.1 ≠ v) →
      parseAttrs hide s "" m = some m) :=
  ⟨parseAttrs_uid_first hide hne s "" m rfl,
   parseAttrs_first_name_unmatched hide hne s "" m rfl⟩

/-- Rules and record body used by the C10 witness. -/
def hideW : List (String × String) := [("com.x", "px")]

def sW : List Char := ("userId=\"10\" name=\"com.z\" junk=\"1\"").data

/-- Witness for C10: a record with its uid attribute before an unmatched
`name` attribute contributes nothing and stops at the `name`. -/
theorem c10_witness :
    (∀ r ∈ hideW, r.1 ≠ "") ∧
    attrPairsOf sW = [("userId", "10"), ("name", "com.z"), ("junk", "1")] ∧
    parseAttrs hideW sW "" [] = some [] :=
  have hne : ∀ r ∈ hideW, r.1 ≠ "" := by decide
  have hpairs : attrPairsOf sW =
      [("userId", "10"), ("name", "com.z"), ("junk", "1")] := by
    simp [sW, attrPairsOf, splitOnce]
  ⟨hne, hpairs,
   (c10_name_order hideW sW [] hne).2 [("userId", "10")] "com.z" [("junk", "1")]
     (by rw [hpairs]; rfl) (by decide) (by decide)⟩

/-- C10 counterexample: in the record
`<package name="com.x" name="com.y" userId="10">` the `name` attribute
`com.y` matches no rule, yet the later `userId` attribute still contributes
`(10, px)` because the earlier `name` had matched — the remainder of the
record is not skipped. -/
theorem c10_counterexample :
    attrPairsOf (("name=\"com.x\" name=\"com.y\" userId=\"10\"").data) =
      [("name", "com.x"), ("name", "com.y"), ("userId", "10")] ∧
    (∀ r ∈ [(("com.x" : String), ("px" : String))], r.1 ≠ ("com.y" : String)) ∧
    parse_packages_xml [("com.x", "px")] []
      "<package name=\"com.x\" name=\"com.y\" userId=\"10\">" = some [(10, ["px"])] := by
  refine ⟨?_, by decide, ?_⟩
  · simp [attrPairsOf, splitOnce]
  · simp [parse_packages_xml, str_starts, parseAttrs, splitOnce, parse_int, emplace]
    <;> decide

end Magisk
